import Mathlib

/-!
# Barista: a self-scaling worker pool (Go package `Beans`)

A shallow embedding of `Barista.go` and `Bean.go`, and the properties of the
pool's construction, admission, shutdown and rebalancing logic.

Modelling conventions

* Go `int32` and `int` values are `Int`; `uint32` and `len(..)` are `Nat`.
* A task (`func()`) is never inspected by the pool, so it is a label of type
  `Nat`.
* A channel of tasks is its buffer (a FIFO list), its capacity, its closed
  flag, and the history of the values receivers have taken from it.
* `[]*Bean` is a list of bean records: every pointer occurs once in the
  slice (it is appended fresh and removed from the end), so no aliasing is
  lost.  The `quit` channel of a bean carries no values; only whether it has
  been closed matters.
* A Go run-time panic is the `error` side of `Except Panic`.
* The goroutines (`brew` of each bean, `monitorTasks`) are interleaved one
  select-branch at a time by the step function `World.step`.
-/

namespace Beans

/-- A task handed to `Submit`: a `func()` the pool never inspects, identified
    by a label. -/
abbrev Task := Nat

/-- Run-time panics the package can raise. -/
inductive Panic where
  | closeOfClosedChannel
  | sendOnClosedChannel
  | indexOutOfRange
  deriving DecidableEq, Repr

/-- The error values of the package: the two exported variables and the
    anonymous `errors.New` of `NewBeans`. -/
inductive Error where
  | ErrPoolShutdown
  | ErrQueueFull
  | maxLessThanMin
  deriving DecidableEq, Repr

/-- A `chan func()`: buffered values in arrival order, capacity, closed flag,
    and (history) the values receivers have taken so far, oldest first. -/
structure Chan where
  buf : List Task
  cap : Nat
  closed : Bool
  taken : List Task
  deriving DecidableEq, Repr

/-- The channel `make(chan func(), cap)`. -/
def Chan.make (cap : Nat) : Chan :=
  { buf := [], cap := cap, closed := false, taken := [] }

/-- The send of `select { case c <- v: ... default: ... }`.  It goes through
    when a receiver is parked on the channel (which needs an empty buffer; the
    value goes straight to that receiver) or when the buffer has a free slot;
    otherwise the `default` branch is taken and `false` is returned.  Sending
    on a closed channel panics. -/
def Chan.trySend (c : Chan) (v : Task) (parked : Bool) : Except Panic (Chan × Bool) :=
  if c.closed then .error .sendOnClosedChannel
  else if parked ∧ c.buf = [] then .ok ({ c with taken := c.taken ++ [v] }, true)
  else if c.buf.length < c.cap then .ok ({ c with buf := c.buf ++ [v] }, true)
  else .ok (c, false)

/-- A receive `v, ok := <-c` that does not block: the oldest buffered value
    when there is one (`ok = true`); on an empty closed channel `ok = false`.
    `none` when the receive would block. -/
def Chan.recv (c : Chan) : Option (Option Task × Chan) :=
  match c.buf with
  | v :: rest => some (some v, { c with buf := rest, taken := c.taken ++ [v] })
  | [] => if c.closed then some (none, c) else none

/-- The builtin `close(c)`. -/
def Chan.close (c : Chan) : Except Panic Chan :=
  if c.closed then .error .closeOfClosedChannel else .ok { c with closed := true }

/-- A worker: `id` and whether its `quit` channel has been closed.  The
    back-reference `pool` is the pool the bean is stored in. -/
structure Bean where
  id : Nat
  quit : Bool
  deriving DecidableEq, Repr

structure Barista where
  Beans : List Bean
  MinBeans : Int
  MaxBeans : Int
  orders : Chan
  monitor : Chan
  IsRunning : Bool
  deriving DecidableEq, Repr

structure BaristaSettings where
  MinBeans : Int
  MaxBeans : Int
  QueueCapacity : Nat
  deriving DecidableEq, Repr

/-- An option is a `func(*BaristaSettings)`: a settings transformer. -/
abbrev BaristaOptions := BaristaSettings → BaristaSettings

def WithMinBeans (minBeans : Int) : BaristaOptions :=
  fun options => { options with MinBeans := minBeans }

def WithMaxBeans (maxBeans : Int) : BaristaOptions :=
  fun options => { options with MaxBeans := maxBeans }

def WithQueueCapacity (capacity : Nat) : BaristaOptions :=
  fun options => { options with QueueCapacity := capacity }

/-- The literal `defaultOptions` of `NewBeans`. -/
def defaultOptions : BaristaSettings :=
  { MinBeans := 2, MaxBeans := 100, QueueCapacity := 500 }

/-- The loop `for _, option := range options { option(&defaultOptions) }`. -/
def applyOptions (options : List BaristaOptions) : BaristaSettings :=
  options.foldl (fun s option => option s) defaultOptions

/-- The loop `for i := 0; i < int(MinBeans); i++ { pool.Beans = append(pool.Beans, b) }`
    run from counter `i` for `fuel` more rounds. -/
def startBeans : Nat → Nat → List Bean → List Bean
  | 0, _, beans => beans
  | fuel + 1, i, beans => startBeans fuel (i + 1) (beans ++ [{ id := i, quit := false }])

/-- `NewBeans(options...)`: the pair `(pool, err)` it returns. -/
def NewBeans (options : List BaristaOptions) : Option Barista × Option Error :=
  let s := applyOptions options
  if s.MaxBeans < s.MinBeans then (none, some .maxLessThanMin)
  else
    (some { orders := Chan.make s.QueueCapacity
            monitor := Chan.make s.QueueCapacity
            MinBeans := s.MinBeans
            MaxBeans := s.MaxBeans
            IsRunning := true
            Beans := startBeans s.MinBeans.toNat 0 [] },
     none)

/-- `Bean.stop`: `close(b.quit)`. -/
def Bean.stop (b : Bean) : Except Panic Bean :=
  if b.quit then .error .closeOfClosedChannel else .ok { b with quit := true }

def Barista.shouldSpawnNewBean (p : Barista) : Bool :=
  decide ((p.orders.buf.length : Int) > p.Beans.length) &&
    decide ((p.Beans.length : Int) < p.MaxBeans)

def Barista.shouldKillBean (p : Barista) : Bool :=
  decide ((p.orders.buf.length : Int) < p.Beans.length) &&
    decide ((p.Beans.length : Int) > p.MinBeans)

def Barista.spawnNewBean (p : Barista) : Barista :=
  if (p.Beans.length : Int) < p.MaxBeans then
    { p with Beans := p.Beans ++ [{ id := p.Beans.length, quit := false }] }
  else p

/-- `killBean`: returns the pool and, when a bean was retired, that bean as
    `stop` left it (it is no longer in the slice). -/
def Barista.killBean (p : Barista) : Except Panic (Barista × Option Bean) :=
  if (p.Beans.length : Int) > p.MinBeans then
    match p.Beans.getLast? with
    | none => .error .indexOutOfRange
    | some b =>
      match b.stop with
      | .error e => .error e
      | .ok b' => .ok ({ p with Beans := p.Beans.dropLast }, some b')
  else .ok (p, none)

/-- The `case <-ticker.C` branch of the loop of `monitorTasks`. -/
def Barista.monitorTick (p : Barista) : Except Panic (Barista × Option Bean) :=
  if p.shouldKillBean then p.killBean else .ok (p, none)

/-- The `case _, ok := <-p.monitor` branch of the loop of `monitorTasks`,
    taken with `ok = true` (a value arrived on `p.monitor`).  The package
    itself has no send on `p.monitor`; the branch runs when some sender
    delivers a value there. -/
def Barista.monitorSignal (p : Barista) : Barista :=
  if p.shouldSpawnNewBean then p.spawnNewBean else p

/-- `Submit(task)`.  `parked` says whether a worker is blocked in its
    `select` waiting on `p.orders` at the moment of the send. -/
def Barista.Submit (p : Barista) (task : Task) (parked : Bool) :
    Except Panic (Barista × Option Error) :=
  if !p.IsRunning then .ok (p, some .ErrPoolShutdown)
  else
    match p.orders.trySend task parked with
    | .error e => .error e
    | .ok (c, true) => .ok ({ p with orders := c }, none)
    | .ok (_, false) => .ok (p, some .ErrQueueFull)

/-- The loop `for _, b := range p.Beans { go b.stop() }` joined by `wg.Wait()`.
    The calls act on distinct beans, so their order is immaterial. -/
def stopAll : List Bean → Except Panic (List Bean)
  | [] => .ok []
  | b :: rest =>
    match b.stop with
    | .error e => .error e
    | .ok b' =>
      match stopAll rest with
      | .error e => .error e
      | .ok rest' => .ok (b' :: rest')

def Barista.Shutdown (p : Barista) : Except Panic (Barista × Option Error) :=
  if p.IsRunning then
    match stopAll p.Beans with
    | .error e => .error e
    | .ok beans =>
      match p.orders.close with
      | .error e => .error e
      | .ok c => .ok ({ p with Beans := beans, orders := c, IsRunning := false }, none)
  else .ok (p, some .ErrPoolShutdown)

/-- What one round of the loop of `Bean.brew` did. -/
inductive BrewOutcome where
  | quit
  | ran (order : Task)
  | drained
  | blocked
  deriving DecidableEq, Repr

/-- One round of the `for { select { ... } }` of `Bean.brew` against the
    channel `b.pool.orders`.  When both cases are ready Go picks either;
    `pickQuit` is that choice. -/
def Bean.brew (b : Bean) (orders : Chan) (pickQuit : Bool) : BrewOutcome × Chan :=
  match orders.recv with
  | none => if b.quit then (.quit, orders) else (.blocked, orders)
  | some (r, c) =>
    if b.quit && pickQuit then (.quit, orders)
    else
      match r with
      | some order => (.ran order, c)
      | none => (.drained, c)

/-- The pool together with what it no longer references: the tasks `Submit`
    accepted (returned `nil` for), in call order, and the beans `killBean`
    removed from the slice. -/
structure World where
  pool : Barista
  accepted : List Task
  retired : List Bean
  deriving DecidableEq, Repr

def World.init (p : Barista) : World :=
  { pool := p, accepted := [], retired := [] }

/-- One atomic action of the program: a call of `Submit` (with whether a
    worker is parked on the queue), the ticker branch of `monitorTasks`, its
    `p.monitor` branch (a value arrives on `p.monitor`), one round of the loop
    of `brew` of a bean, or a call of `Shutdown`. -/
inductive Step where
  | submit (task : Task) (parked : Bool)
  | tick
  | signal
  | brew (b : Bean) (pickQuit : Bool)
  | shutdown
  deriving DecidableEq, Repr

/-- The effect of one step on the world.  For `.signal` the `p.monitor` branch
    is run as if some sender had delivered a value on `p.monitor`: this
    covers every sender there could be, while the package itself has none
    (`Program.step` has the receive as the package performs it). -/
def World.step (w : World) : Step → Except Panic World
  | .submit task parked =>
    match w.pool.Submit task parked with
    | .error e => .error e
    | .ok (p, none) => .ok { w with pool := p, accepted := w.accepted ++ [task] }
    | .ok (p, some _) => .ok { w with pool := p }
  | .tick =>
    match w.pool.monitorTick with
    | .error e => .error e
    | .ok (p, none) => .ok { w with pool := p }
    | .ok (p, some b) => .ok { w with pool := p, retired := w.retired ++ [b] }
  | .signal => .ok { w with pool := w.pool.monitorSignal }
  | .brew b pickQuit =>
    if b ∈ w.pool.Beans ++ w.retired then
      .ok { w with pool := { w.pool with orders := (b.brew w.pool.orders pickQuit).2 } }
    else .ok w
  | .shutdown =>
    match w.pool.Shutdown with
    | .error e => .error e
    | .ok (p, _) => .ok { w with pool := p }

def World.run (w : World) : List Step → Except Panic World
  | [] => .ok w
  | s :: rest =>
    match w.step s with
    | .error e => .error e
    | .ok w' => w'.run rest

/-- The calls `Submit(t)` for each `t` of `tasks`, one after the other, with
    no worker receiving in between; the errors returned, in call order. -/
def Barista.submitMany (p : Barista) : List Task → Except Panic (Barista × List (Option Error))
  | [] => .ok (p, [])
  | t :: ts =>
    match p.Submit t false with
    | .error e => .error e
    | .ok (p', r) =>
      match p'.submitMany ts with
      | .error e => .error e
      | .ok (q, rs) => .ok (q, r :: rs)

/-- Steps of producers and workers only: `Submit` calls and `brew` rounds. -/
def Step.isDelivery : Step → Bool
  | .submit _ _ => true
  | .brew _ _ => true
  | _ => false

/-- The three option constructors of the package, as data. -/
inductive OptionSpec where
  | minBeans (v : Int)
  | maxBeans (v : Int)
  | queueCapacity (v : Nat)
  deriving DecidableEq, Repr

/-- The `BaristaOptions` value an option denotes. -/
def OptionSpec.toOption : OptionSpec → BaristaOptions
  | .minBeans v => WithMinBeans v
  | .maxBeans v => WithMaxBeans v
  | .queueCapacity v => WithQueueCapacity v

def OptionSpec.minBeans? : OptionSpec → Option Int
  | .minBeans v => some v
  | _ => none

def OptionSpec.maxBeans? : OptionSpec → Option Int
  | .maxBeans v => some v
  | _ => none

def OptionSpec.queueCapacity? : OptionSpec → Option Nat
  | .queueCapacity v => some v
  | _ => none

/-- Specification of option resolution: the value of the last option of the
    list that sets the field picked by `sel`, or `dflt` when none does. -/
def lastOr {α : Type} (sel : OptionSpec → Option α) (dflt : α) (l : List OptionSpec) : α :=
  ((l.filterMap sel).getLast?).getD dflt

/-- The facts carried along every run: while the pool is running its queue is
    open and no listed bean has been stopped; the worker count is at least
    `MinBeans` and at most `max(MaxBeans, 0)`; and the accepted tasks are the
    tasks already taken by workers followed by the queued tasks. -/
def World.Inv (w : World) : Prop :=
  (w.pool.IsRunning = true →
    w.pool.orders.closed = false ∧ ∀ b ∈ w.pool.Beans, b.quit = false) ∧
  w.pool.MinBeans ≤ (w.pool.Beans.length : Int) ∧
  (w.pool.Beans.length : Int) ≤ max w.pool.MaxBeans 0 ∧
  w.accepted = w.pool.orders.taken ++ w.pool.orders.buf

/-- The program as the package runs it: the world, and whether the goroutine
    of `monitorTasks` is still in its loop. -/
structure Program where
  world : World
  monitoring : Bool
  deriving DecidableEq, Repr

/-- The state after `NewBeans` returned: `go pool.monitorTasks()` has started
    the loop. -/
def Program.init (p : Barista) : Program :=
  { world := World.init p, monitoring := true }

/-- One step of the program with the receive `_, ok := <-p.monitor` of
    `monitorTasks` performed on the channel itself: with nothing buffered on
    the open channel the case is not ready and nothing happens; a buffered
    value is taken and the spawn check runs; on the closed channel the loop
    returns, after which neither branch runs again.  The other steps are
    those of `World.step`. -/
def Program.step (s : Program) : Step → Except Panic Program
  | .tick =>
    if s.monitoring then
      match s.world.step .tick with
      | .error e => .error e
      | .ok w => .ok { s with world := w }
    else .ok s
  | .signal =>
    if s.monitoring then
      match s.world.pool.monitor.recv with
      | none => .ok s
      | some (none, _) => .ok { s with monitoring := false }
      | some (some _, c) =>
        .ok { s with
          world := { s.world with pool := ({ s.world.pool with monitor := c }).monitorSignal } }
    else .ok s
  | .submit task parked =>
    match s.world.step (.submit task parked) with
    | .error e => .error e
    | .ok w => .ok { s with world := w }
  | .brew b pickQuit =>
    match s.world.step (.brew b pickQuit) with
    | .error e => .error e
    | .ok w => .ok { s with world := w }
  | .shutdown =>
    match s.world.step .shutdown with
    | .error e => .error e
    | .ok w => .ok { s with world := w }

def Program.run (s : Program) : List Step → Except Panic Program
  | [] => .ok s
  | st :: rest =>
    match s.step st with
    | .error e => .error e
    | .ok s' => s'.run rest

/-- The facts carried along every run of the program: those of `World.Inv`;
    `p.monitor` is open and empty and the loop of `monitorTasks` is running;
    the worker count is `max(MinBeans, 0)`; no bean has been removed by
    `killBean`; and the listed beans are stopped exactly when the pool is no
    longer running. -/
def Program.Inv (s : Program) : Prop :=
  s.world.Inv ∧
  s.monitoring = true ∧
  s.world.pool.monitor.buf = [] ∧ s.world.pool.monitor.closed = false ∧
  (s.world.pool.Beans.length : Int) = max s.world.pool.MinBeans 0 ∧
  s.world.retired = [] ∧
  ∀ b ∈ s.world.pool.Beans, b.quit = !s.world.pool.IsRunning

/-! ## Theorems -/

theorem startBeans_length (fuel i : Nat) (beans : List Bean) :
    (startBeans fuel i beans).length = beans.length + fuel := by
  induction fuel generalizing i beans with
  | zero => simp [startBeans]
  | succ n ih => simp [startBeans, ih]; omega

theorem startBeans_quit (fuel i : Nat) (beans : List Bean)
    (h : ∀ b ∈ beans, b.quit = false) : ∀ b ∈ startBeans fuel i beans, b.quit = false := by
  induction fuel generalizing i beans with
  | zero => simpa [startBeans] using h
  | succ n ih =>
    apply ih
    intro b hb
    rcases List.mem_append.1 hb with hb | hb
    · exact h b hb
    · simp at hb; subst hb; rfl

theorem NewBeans_eq (options : List BaristaOptions) :
    NewBeans options =
      if (applyOptions options).MaxBeans < (applyOptions options).MinBeans then
        (none, some .maxLessThanMin)
      else
        (some { orders := Chan.make (applyOptions options).QueueCapacity
                monitor := Chan.make (applyOptions options).QueueCapacity
                MinBeans := (applyOptions options).MinBeans
                MaxBeans := (applyOptions options).MaxBeans
                IsRunning := true
                Beans := startBeans (applyOptions options).MinBeans.toNat 0 [] }, none) := rfl

theorem applyOptions_snoc (l : List BaristaOptions) (o : BaristaOptions) :
    applyOptions (l ++ [o]) = o (applyOptions l) := by
  simp [applyOptions, List.foldl_append]

theorem applyOptions_spec (l : List OptionSpec) :
    applyOptions (l.map OptionSpec.toOption) =
      { MinBeans := lastOr OptionSpec.minBeans? 2 l
        MaxBeans := lastOr OptionSpec.maxBeans? 100 l
        QueueCapacity := lastOr OptionSpec.queueCapacity? 500 l } := by
  induction l using List.reverseRecOn with
  | nil => rfl
  | append_singleton l o ih =>
    rw [List.map_append, List.map_singleton, applyOptions_snoc, ih]
    cases o <;>
      simp [OptionSpec.toOption, WithMinBeans, WithMaxBeans, WithQueueCapacity, lastOr,
        List.filterMap_append, OptionSpec.minBeans?, OptionSpec.maxBeans?,
        OptionSpec.queueCapacity?]

/-- C1: `NewBeans` returns a non-nil error and a nil pool exactly when, in the
    settings obtained by applying the options in order to the defaults
    `{2, 100, 500}`, `MaxBeans < MinBeans`; otherwise it returns a pool and a
    nil error.  `NewBeans(WithMinBeans(200))` fails and `NewBeans()` succeeds. -/
theorem NewBeans_error_iff (options : List BaristaOptions) :
    (((NewBeans options).2 ≠ none ∧ (NewBeans options).1 = none) ↔
      (options.foldl (fun s option => option s)
          ({ MinBeans := 2, MaxBeans := 100, QueueCapacity := 500 } : BaristaSettings)).MaxBeans <
        (options.foldl (fun s option => option s)
          ({ MinBeans := 2, MaxBeans := 100, QueueCapacity := 500 } : BaristaSettings)).MinBeans) ∧
    (((NewBeans options).2 = none ∧ (NewBeans options).1 ≠ none) ∨
      ((NewBeans options).2 ≠ none ∧ (NewBeans options).1 = none)) ∧
    ((NewBeans [WithMinBeans 200]).2 ≠ none ∧ (NewBeans [WithMinBeans 200]).1 = none) ∧
    ((NewBeans []).2 = none ∧ (NewBeans []).1 ≠ none) := by
  refine ⟨?_, ?_, by decide, by decide⟩
  · rw [NewBeans_eq]
    show _ ↔ (applyOptions options).MaxBeans < (applyOptions options).MinBeans
    by_cases h : (applyOptions options).MaxBeans < (applyOptions options).MinBeans <;> simp [h]
  · rw [NewBeans_eq]
    by_cases h : (applyOptions options).MaxBeans < (applyOptions options).MinBeans <;> simp [h]

/-- C7: with no options the pool has `MinBeans = 2`, `MaxBeans = 100` and a
    queue of capacity 500; for any list of the package's options each resolved
    setting is the value of the last option given for that field, or the
    default when none is, and a returned pool carries the resolved `MinBeans`
    and `MaxBeans` (and a queue of the resolved capacity). -/
theorem NewBeans_options_resolution (l : List OptionSpec) :
    (∃ p, NewBeans [] = (some p, none) ∧ p.MinBeans = 2 ∧ p.MaxBeans = 100 ∧
      p.orders.cap = 500) ∧
    (applyOptions (l.map OptionSpec.toOption)).MinBeans = lastOr OptionSpec.minBeans? 2 l ∧
    (applyOptions (l.map OptionSpec.toOption)).MaxBeans = lastOr OptionSpec.maxBeans? 100 l ∧
    (applyOptions (l.map OptionSpec.toOption)).QueueCapacity =
      lastOr OptionSpec.queueCapacity? 500 l ∧
    (∀ p, (NewBeans (l.map OptionSpec.toOption)).1 = some p →
      p.MinBeans = lastOr OptionSpec.minBeans? 2 l ∧
      p.MaxBeans = lastOr OptionSpec.maxBeans? 100 l ∧
      p.orders.cap = lastOr OptionSpec.queueCapacity? 500 l) := by
  refine ⟨⟨_, rfl, rfl, rfl, rfl⟩, ?_, ?_, ?_, ?_⟩
  · rw [applyOptions_spec]
  · rw [applyOptions_spec]
  · rw [applyOptions_spec]
  · intro p hp
    rw [NewBeans_eq, applyOptions_spec] at hp
    split at hp
    · simp at hp
    · simp at hp
      subst hp
      exact ⟨rfl, rfl, rfl⟩

/-- The resolution of C7 at the options `min 3, max 7, capacity 9, min 5`. -/
theorem NewBeans_options_resolution_witness :
    (NewBeans [WithMinBeans 3, WithMaxBeans 7, WithQueueCapacity 9, WithMinBeans 5]).1 =
      some ⟨startBeans 5 0 [], 5, 7, Chan.make 9, Chan.make 9, true⟩ ∧
    (5 : Int) = lastOr OptionSpec.minBeans? 2
      [.minBeans 3, .maxBeans 7, .queueCapacity 9, .minBeans 5] ∧
    (7 : Int) = lastOr OptionSpec.maxBeans? 100
      [.minBeans 3, .maxBeans 7, .queueCapacity 9, .minBeans 5] ∧
    (9 : Nat) = lastOr OptionSpec.queueCapacity? 500
      [.minBeans 3, .maxBeans 7, .queueCapacity 9, .minBeans 5] :=
  ⟨rfl, (NewBeans_options_resolution
    [.minBeans 3, .maxBeans 7, .queueCapacity 9, .minBeans 5]).2.2.2.2
      ⟨startBeans 5 0 [], 5, 7, Chan.make 9, Chan.make 9, true⟩ rfl⟩

/-- C2 (as amended): for all `min ≤ max`,
    `NewBeans(WithMinBeans(min), WithMaxBeans(max))` succeeds and the pool is
    running and starts with `max(min, 0)` workers, which is `min` workers
    whenever `min ≥ 0`. -/
theorem NewBeans_starts_min_workers (mn mx : Int) (h : mn ≤ mx) :
    ∃ p, NewBeans [WithMinBeans mn, WithMaxBeans mx] = (some p, none) ∧
      p.IsRunning = true ∧ (p.Beans.length : Int) = max mn 0 ∧
      (0 ≤ mn → (p.Beans.length : Int) = mn) := by
  have e : applyOptions [WithMinBeans mn, WithMaxBeans mx] =
      { MinBeans := mn, MaxBeans := mx, QueueCapacity := 500 } := rfl
  rw [NewBeans_eq, e]
  simp only [not_lt.2 h, if_false]
  refine ⟨_, rfl, rfl, ?_, ?_⟩
  · simp only [startBeans_length, List.length_nil, Nat.zero_add]; omega
  · intro h0
    simp only [startBeans_length, List.length_nil, Nat.zero_add]; omega

/-- The amended C2 at `min = 2`, `max = 4`. -/
theorem NewBeans_starts_min_workers_witness :
    (2 : Int) ≤ 4 ∧
    ∃ p, NewBeans [WithMinBeans 2, WithMaxBeans 4] = (some p, none) ∧
      p.IsRunning = true ∧ (p.Beans.length : Int) = max 2 0 ∧
      ((0 : Int) ≤ 2 → (p.Beans.length : Int) = 2) :=
  ⟨by decide, NewBeans_starts_min_workers 2 4 (by decide)⟩

/-- C2 fails as stated: with `min = -1 ≤ max = 0` the call succeeds and the
    pool starts with 0 workers, not with `min` workers. -/
theorem NewBeans_negative_min_counterexample :
    (-1 : Int) ≤ 0 ∧
    (NewBeans [WithMinBeans (-1), WithMaxBeans 0]).2 = none ∧
    (NewBeans [WithMinBeans (-1), WithMaxBeans 0]).1.map (fun p => (p.Beans.length : Int)) =
      some 0 ∧
    (NewBeans [WithMinBeans (-1), WithMaxBeans 0]).1.map (fun p => (p.Beans.length : Int)) ≠
      some (-1) := by
  decide

theorem submitMany_fill (tasks : List Task) (last : Task) (p : Barista)
    (hr : p.IsRunning = true) (hc : p.orders.closed = false)
    (hl : p.orders.buf.length + tasks.length = p.orders.cap) :
    p.submitMany (tasks ++ [last]) =
      .ok ({ p with orders := { p.orders with buf := p.orders.buf ++ tasks } },
        List.replicate tasks.length none ++ [some .ErrQueueFull]) := by
  induction tasks generalizing p with
  | nil =>
    obtain ⟨beans, mn, mx, ⟨buf, cap, closed, taken⟩, mon, run⟩ := p
    simp only [List.length_nil, Nat.add_zero] at hl hr hc
    subst hr hc hl
    simp [Barista.submitMany, Barista.Submit, Chan.trySend]
  | cons t ts ih =>
    obtain ⟨beans, mn, mx, ⟨buf, cap, closed, taken⟩, mon, run⟩ := p
    simp only [List.length_cons] at hl hr hc
    subst hr hc
    have hlt : buf.length < cap := by omega
    have h := ih ⟨beans, mn, mx, ⟨buf ++ [t], cap, false, taken⟩, mon, true⟩ rfl rfl
      (by simp only [List.length_append, List.length_cons, List.length_nil]; omega)
    simp only [List.append_assoc, List.singleton_append] at h
    simp [Barista.submitMany, Barista.Submit, Chan.trySend, hlt, h, List.replicate_succ]

/-- C3: on the pool freshly created by `NewBeans(..., WithQueueCapacity(C))`,
    with no task received in between, the first `C` calls of `Submit` each
    return `nil` and call `C + 1` returns `ErrQueueFull`; the `C` accepted
    tasks sit in the queue in call order. -/
theorem Submit_fills_queue_then_full (pre : List BaristaOptions) (C : Nat) (p : Barista)
    (tasks : List Task) (last : Task)
    (hp : NewBeans (pre ++ [WithQueueCapacity C]) = (some p, none))
    (hlen : tasks.length = C) :
    p.submitMany (tasks ++ [last]) =
      .ok ({ p with orders := { p.orders with buf := tasks } },
        List.replicate C none ++ [some .ErrQueueFull]) := by
  rw [NewBeans_eq, applyOptions_snoc] at hp
  split at hp
  · simp at hp
  · simp only [Prod.mk.injEq, Option.some.injEq, and_true] at hp
    subst hp
    have h := submitMany_fill tasks last
      { orders := Chan.make (WithQueueCapacity C (applyOptions pre)).QueueCapacity
        monitor := Chan.make (WithQueueCapacity C (applyOptions pre)).QueueCapacity
        MinBeans := (WithQueueCapacity C (applyOptions pre)).MinBeans
        MaxBeans := (WithQueueCapacity C (applyOptions pre)).MaxBeans
        IsRunning := true
        Beans := startBeans (WithQueueCapacity C (applyOptions pre)).MinBeans.toNat 0 [] }
      rfl rfl (by simpa [Chan.make, WithQueueCapacity] using hlen)
    rw [h]
    simp [Chan.make, hlen]

/-- C3 at capacity 2: two accepted calls, the third is refused. -/
theorem Submit_fills_queue_then_full_witness :
    NewBeans ([WithMinBeans 1] ++ [WithQueueCapacity 2]) =
      (some ⟨[⟨0, false⟩], 1, 100, Chan.make 2, Chan.make 2, true⟩, none) ∧
    [7, 8].length = 2 ∧
    Barista.submitMany ⟨[⟨0, false⟩], 1, 100, Chan.make 2, Chan.make 2, true⟩ ([7, 8] ++ [9]) =
      .ok (⟨[⟨0, false⟩], 1, 100, ⟨[7, 8], 2, false, []⟩, Chan.make 2, true⟩,
        [none, none, some .ErrQueueFull]) :=
  ⟨rfl, rfl, Submit_fills_queue_then_full [WithMinBeans 1] 2
    ⟨[⟨0, false⟩], 1, 100, Chan.make 2, Chan.make 2, true⟩ [7, 8] 9 rfl rfl⟩

theorem stopAll_length (l l' : List Bean) (h : stopAll l = .ok l') : l'.length = l.length := by
  induction l generalizing l' with
  | nil => simp [stopAll] at h; subst h; rfl
  | cons b rest ih =>
    simp only [stopAll] at h
    split at h
    · simp at h
    · split at h
      · simp at h
      · rename_i r hr
        simp at h; subst h
        simp [ih _ hr]

theorem stopAll_ok (l : List Bean) (h : ∀ b ∈ l, b.quit = false) :
    stopAll l = .ok (l.map fun b => { b with quit := true }) := by
  induction l with
  | nil => rfl
  | cons b rest ih =>
    have hb : b.quit = false := h b (List.mem_cons_self _ _)
    have hr := ih (fun x hx => h x (List.mem_cons_of_mem _ hx))
    simp [stopAll, Bean.stop, hb, hr]

theorem Submit_effect (p p' : Barista) (t : Task) (parked : Bool) (r : Option Error)
    (h : p.Submit t parked = .ok (p', r)) :
    p'.Beans = p.Beans ∧ p'.MinBeans = p.MinBeans ∧ p'.MaxBeans = p.MaxBeans ∧
    p'.IsRunning = p.IsRunning ∧ p'.orders.closed = p.orders.closed ∧
    (r = none → p'.orders.taken ++ p'.orders.buf = p.orders.taken ++ p.orders.buf ++ [t]) ∧
    (r ≠ none → p' = p) := by
  unfold Barista.Submit Chan.trySend at h
  by_cases hr : p.IsRunning = true
  · by_cases hc : p.orders.closed = true
    · simp [hr, hc] at h
    · by_cases hpk : parked = true ∧ p.orders.buf = []
      · simp [hr, hc, hpk] at h
        obtain ⟨rfl, rfl⟩ := h
        simp [hpk.2, hr, hc]
      · by_cases hlt : p.orders.buf.length < p.orders.cap
        · simp only [hr, hc, hpk, hlt] at h
          simp at h
          obtain ⟨rfl, rfl⟩ := h
          simp [hr, hc]
        · simp only [hr, hc, hpk, hlt] at h
          simp at h
          obtain ⟨rfl, rfl⟩ := h
          simp
  · simp [hr] at h
    obtain ⟨rfl, rfl⟩ := h
    simp

theorem Submit_stopped (p : Barista) (t : Task) (parked : Bool) (h : p.IsRunning = false) :
    p.Submit t parked = .ok (p, some .ErrPoolShutdown) := by
  simp [Barista.Submit, h]

theorem Shutdown_stopped (p : Barista) (h : p.IsRunning = false) :
    p.Shutdown = .ok (p, some .ErrPoolShutdown) := by
  simp [Barista.Shutdown, h]

theorem Shutdown_effect (p p' : Barista) (r : Option Error) (h : p.Shutdown = .ok (p', r)) :
    p'.IsRunning = false ∧ p'.MinBeans = p.MinBeans ∧ p'.MaxBeans = p.MaxBeans ∧
    p'.Beans.length = p.Beans.length ∧ p'.orders.buf = p.orders.buf ∧
    p'.orders.taken = p.orders.taken := by
  unfold Barista.Shutdown Chan.close at h
  by_cases hr : p.IsRunning = true
  · simp only [hr, if_true] at h
    cases hb : stopAll p.Beans with
    | error e => simp [hb] at h
    | ok beans =>
      by_cases hc : p.orders.closed = true
      · simp [hb, hc] at h
      · simp [hb, hc] at h
        obtain ⟨rfl, rfl⟩ := h
        simp [stopAll_length _ _ hb]
  · simp [hr] at h
    obtain ⟨rfl, rfl⟩ := h
    simpa using hr

theorem Shutdown_running (p : Barista) (hr : p.IsRunning = true)
    (hc : p.orders.closed = false) (hq : ∀ b ∈ p.Beans, b.quit = false) :
    p.Shutdown = .ok ({ p with Beans := p.Beans.map fun b => { b with quit := true }
                               orders := { p.orders with closed := true }
                               IsRunning := false }, none) := by
  simp [Barista.Shutdown, hr, stopAll_ok _ hq, Chan.close, hc]

theorem monitorTick_effect (p p' : Barista) (r : Option Bean) (h : p.monitorTick = .ok (p', r)) :
    p'.orders = p.orders ∧ p'.monitor = p.monitor ∧ p'.MinBeans = p.MinBeans ∧
    p'.MaxBeans = p.MaxBeans ∧ p'.IsRunning = p.IsRunning ∧
    ((p'.Beans = p.Beans ∧ r = none) ∨
      (p.MinBeans < p.Beans.length ∧ p'.Beans = p.Beans.dropLast ∧ p.Beans ≠ [])) := by
  unfold Barista.monitorTick Barista.killBean at h
  split at h
  · split at h
    · rename_i hlt
      split at h
      · simp at h
      · rename_i b hb
        split at h
        · simp at h
        · simp at h; obtain ⟨rfl, rfl⟩ := h
          refine ⟨rfl, rfl, rfl, rfl, rfl, Or.inr ⟨hlt, rfl, ?_⟩⟩
          intro hnil; simp [hnil] at hb
    · simp at h; obtain ⟨rfl, rfl⟩ := h; simp
  · simp at h; obtain ⟨rfl, rfl⟩ := h; simp

theorem monitorSignal_effect (p : Barista) :
    p.monitorSignal.orders = p.orders ∧ p.monitorSignal.monitor = p.monitor ∧
    p.monitorSignal.MinBeans = p.MinBeans ∧ p.monitorSignal.MaxBeans = p.MaxBeans ∧
    p.monitorSignal.IsRunning = p.IsRunning ∧
    (p.monitorSignal.Beans = p.Beans ∨
      ((p.Beans.length : Int) < p.MaxBeans ∧
        p.monitorSignal.Beans = p.Beans ++ [{ id := p.Beans.length, quit := false }])) := by
  unfold Barista.monitorSignal Barista.spawnNewBean
  split
  · split
    · rename_i hlt; exact ⟨rfl, rfl, rfl, rfl, rfl, Or.inr ⟨hlt, rfl⟩⟩
    · simp
  · simp

theorem brew_effect (b : Bean) (c : Chan) (pickQuit : Bool) :
    (b.brew c pickQuit).2.closed = c.closed ∧ (b.brew c pickQuit).2.cap = c.cap ∧
    (b.brew c pickQuit).2.taken ++ (b.brew c pickQuit).2.buf = c.taken ++ c.buf := by
  unfold Bean.brew Chan.recv
  obtain ⟨buf, cap, closed, taken⟩ := c
  cases buf with
  | nil => cases closed <;> cases hq : b.quit <;> cases pickQuit <;> simp
  | cons v rest => cases hq : b.quit <;> cases pickQuit <;> simp

theorem init_inv (options : List BaristaOptions) (p : Barista)
    (hp : NewBeans options = (some p, none)) : (World.init p).Inv := by
  rw [NewBeans_eq] at hp
  split at hp
  · simp at hp
  · rename_i hle
    simp only [Prod.mk.injEq, Option.some.injEq, and_true] at hp
    subst hp
    refine ⟨fun _ => ⟨rfl, startBeans_quit _ _ _ (by simp)⟩, ?_, ?_, rfl⟩
    · simp only [World.init, startBeans_length, List.length_nil, Nat.zero_add]; omega
    · simp only [World.init, startBeans_length, List.length_nil, Nat.zero_add]; omega

theorem step_inv (w w' : World) (s : Step) (hi : w.Inv) (h : w.step s = .ok w') : w'.Inv := by
  obtain ⟨hf, hmin, hmax, hacc⟩ := hi
  cases s with
  | submit task parked =>
    simp only [World.step] at h
    cases hs : w.pool.Submit task parked with
    | error e => simp [hs] at h
    | ok pr =>
      obtain ⟨p, r⟩ := pr
      obtain ⟨e1, e2, e3, e4, e5, e6, e7⟩ := Submit_effect _ _ _ _ _ hs
      cases r with
      | none =>
        simp [hs] at h; subst h
        refine ⟨?_, ?_, ?_, ?_⟩
        · simpa [e1, e4, e5] using hf
        · simpa [e1, e2] using hmin
        · simpa [e1, e3] using hmax
        · simp [e6 rfl, hacc]
      | some err =>
        simp [hs] at h; subst h
        have := e7 (by simp); subst this
        exact ⟨hf, hmin, hmax, hacc⟩
  | tick =>
    simp only [World.step] at h
    cases hs : w.pool.monitorTick with
    | error e => simp [hs] at h
    | ok pr =>
      obtain ⟨p, r⟩ := pr
      obtain ⟨e1, e2, e3, e4, e5, e6⟩ := monitorTick_effect _ _ _ hs
      have key : World.Inv { w with pool := p } := by
        rcases e6 with ⟨hb, _⟩ | ⟨hlt, hb, hne⟩
        · refine ⟨?_, ?_, ?_, ?_⟩
          · simpa [e1, e5, hb] using hf
          · simpa [e3, hb] using hmin
          · simpa [e4, hb] using hmax
          · simpa [e1] using hacc
        · have hlen : p.Beans.length + 1 = w.pool.Beans.length := by
            rw [hb, List.length_dropLast]
            have := List.length_pos.2 hne
            omega
          refine ⟨?_, ?_, ?_, ?_⟩
          · intro hr
            simp only [e5] at hr
            obtain ⟨hc, hq⟩ := hf hr
            refine ⟨by simpa [e1] using hc, fun b hbm => hq b ?_⟩
            simp only [hb] at hbm
            exact List.dropLast_subset _ hbm
          · simp only [e3]; omega
          · simp only [e4]; omega
          · simpa [e1] using hacc
      cases r with
      | none => simp [hs] at h; subst h; exact key
      | some b => simp [hs] at h; subst h; exact key
  | signal =>
    simp only [World.step] at h
    simp at h; subst h
    obtain ⟨e1, e2, e3, e4, e5, e6⟩ := monitorSignal_effect w.pool
    rcases e6 with hb | ⟨hlt, hb⟩
    · refine ⟨?_, ?_, ?_, ?_⟩
      · simpa [e1, e5, hb] using hf
      · simpa [e3, hb] using hmin
      · simpa [e4, hb] using hmax
      · simpa [e1] using hacc
    · refine ⟨?_, ?_, ?_, ?_⟩
      · intro hr
        simp only [e5] at hr
        obtain ⟨hc, hq⟩ := hf hr
        refine ⟨by simpa [e1] using hc, fun b hbm => ?_⟩
        simp only [hb, List.mem_append, List.mem_singleton] at hbm
        rcases hbm with hbm | rfl
        · exact hq b hbm
        · rfl
      · simp only [e3, hb, List.length_append, List.length_singleton]; push_cast; omega
      · simp only [e4, hb, List.length_append, List.length_singleton]; push_cast; omega
      · simpa [e1] using hacc
  | brew b pickQuit =>
    simp only [World.step] at h
    obtain ⟨e1, e2, e3⟩ := brew_effect b w.pool.orders pickQuit
    split at h
    · simp at h; subst h
      refine ⟨?_, hmin, hmax, ?_⟩
      · simpa [e1] using hf
      · simpa [e3] using hacc
    · simp at h; subst h
      exact ⟨hf, hmin, hmax, hacc⟩
  | shutdown =>
    simp only [World.step] at h
    cases hs : w.pool.Shutdown with
    | error e => simp [hs] at h
    | ok pr =>
      obtain ⟨p, r⟩ := pr
      obtain ⟨e1, e2, e3, e4, e5, e6⟩ := Shutdown_effect _ _ _ hs
      simp [hs] at h; subst h
      refine ⟨?_, ?_, ?_, ?_⟩
      · simp [e1]
      · simpa [e2, e4] using hmin
      · simpa [e3, e4] using hmax
      · simpa [e5, e6] using hacc

theorem run_inv (steps : List Step) (w w' : World) (hi : w.Inv)
    (h : w.run steps = .ok w') : w'.Inv := by
  induction steps generalizing w with
  | nil => simp [World.run] at h; subst h; exact hi
  | cons s rest ih =>
    simp only [World.run] at h
    cases hs : w.step s with
    | error e => simp [hs] at h
    | ok w1 =>
      simp only [hs] at h
      exact ih w1 (step_inv _ _ _ hi hs) h

theorem step_stopped (w w' : World) (s : Step) (hr : w.pool.IsRunning = false)
    (h : w.step s = .ok w') : w'.pool.IsRunning = false := by
  cases s with
  | submit task parked =>
    simp [World.step, Submit_stopped _ _ _ hr] at h; subst h; exact hr
  | tick =>
    simp only [World.step] at h
    cases hs : w.pool.monitorTick with
    | error e => simp [hs] at h
    | ok pr =>
      obtain ⟨p, r⟩ := pr
      obtain ⟨_, _, _, _, e5, _⟩ := monitorTick_effect _ _ _ hs
      cases r <;> (simp [hs] at h; subst h; simpa [e5] using hr)
  | signal =>
    simp [World.step] at h; subst h
    simpa [(monitorSignal_effect w.pool).2.2.2.2.1] using hr
  | brew b pickQuit =>
    simp only [World.step] at h
    split at h <;> (simp at h; subst h; exact hr)
  | shutdown =>
    simp [World.step, Shutdown_stopped _ hr] at h; subst h; exact hr

theorem run_stopped (steps : List Step) (w w' : World) (hr : w.pool.IsRunning = false)
    (h : w.run steps = .ok w') : w'.pool.IsRunning = false := by
  induction steps generalizing w with
  | nil => simp [World.run] at h; subst h; exact hr
  | cons s rest ih =>
    simp only [World.run] at h
    cases hs : w.step s with
    | error e => simp [hs] at h
    | ok w1 =>
      simp only [hs] at h
      exact ih w1 (step_stopped _ _ _ hr hs) h

theorem step_config (w w' : World) (s : Step) (h : w.step s = .ok w') :
    w'.pool.MinBeans = w.pool.MinBeans ∧ w'.pool.MaxBeans = w.pool.MaxBeans := by
  cases s with
  | submit task parked =>
    simp only [World.step] at h
    cases hs : w.pool.Submit task parked with
    | error e => simp [hs] at h
    | ok pr =>
      obtain ⟨p, r⟩ := pr
      obtain ⟨_, e2, e3, _⟩ := Submit_effect _ _ _ _ _ hs
      cases r <;> (simp [hs] at h; subst h; exact ⟨e2, e3⟩)
  | tick =>
    simp only [World.step] at h
    cases hs : w.pool.monitorTick with
    | error e => simp [hs] at h
    | ok pr =>
      obtain ⟨p, r⟩ := pr
      obtain ⟨_, _, e3, e4, _⟩ := monitorTick_effect _ _ _ hs
      cases r <;> (simp [hs] at h; subst h; exact ⟨e3, e4⟩)
  | signal =>
    simp [World.step] at h; subst h
    exact ⟨(monitorSignal_effect w.pool).2.2.1, (monitorSignal_effect w.pool).2.2.2.1⟩
  | brew b pickQuit =>
    simp only [World.step] at h
    split at h <;> (simp at h; subst h; exact ⟨rfl, rfl⟩)
  | shutdown =>
    simp only [World.step] at h
    cases hs : w.pool.Shutdown with
    | error e => simp [hs] at h
    | ok pr =>
      obtain ⟨p, r⟩ := pr
      obtain ⟨_, e2, e3, _⟩ := Shutdown_effect _ _ _ hs
      simp [hs] at h; subst h; exact ⟨e2, e3⟩

theorem run_config (steps : List Step) (w w' : World) (h : w.run steps = .ok w') :
    w'.pool.MinBeans = w.pool.MinBeans ∧ w'.pool.MaxBeans = w.pool.MaxBeans := by
  induction steps generalizing w with
  | nil => simp [World.run] at h; subst h; exact ⟨rfl, rfl⟩
  | cons s rest ih =>
    simp only [World.run] at h
    cases hs : w.step s with
    | error e => simp [hs] at h
    | ok w1 =>
      simp only [hs] at h
      obtain ⟨a, b⟩ := ih w1 h
      obtain ⟨c, d⟩ := step_config _ _ _ hs
      exact ⟨a.trans c, b.trans d⟩

theorem step_delivery_ok (w : World) (s : Step) (hi : w.Inv) (hr : w.pool.IsRunning = true)
    (hd : s.isDelivery = true) : ∃ w', w.step s = .ok w' ∧ w'.pool.IsRunning = true := by
  cases s with
  | submit task parked =>
    have hc := (hi.1 hr).1
    cases hs : w.pool.Submit task parked with
    | error e =>
      exfalso
      unfold Barista.Submit Chan.trySend at hs
      simp only [hr, hc] at hs
      by_cases hpk : parked = true ∧ w.pool.orders.buf = []
      · simp [hpk] at hs
      · by_cases hlt : w.pool.orders.buf.length < w.pool.orders.cap
        · simp only [hpk, hlt] at hs; simp at hs
        · simp only [hpk, hlt] at hs; simp at hs
    | ok pr =>
      obtain ⟨p, r⟩ := pr
      obtain ⟨_, _, _, e4, _⟩ := Submit_effect _ _ _ _ _ hs
      cases r with
      | none =>
        exact ⟨{ w with pool := p, accepted := w.accepted ++ [task] },
          by simp only [World.step, hs], by simpa [e4] using hr⟩
      | some err =>
        exact ⟨{ w with pool := p }, by simp only [World.step, hs], by simpa [e4] using hr⟩
  | brew b pickQuit =>
    simp only [World.step]
    split
    · exact ⟨_, rfl, hr⟩
    · exact ⟨_, rfl, hr⟩
  | tick => simp [Step.isDelivery] at hd
  | signal => simp [Step.isDelivery] at hd
  | shutdown => simp [Step.isDelivery] at hd

theorem run_delivery_ok (steps : List Step) (w : World) (hi : w.Inv)
    (hr : w.pool.IsRunning = true) (hd : ∀ s ∈ steps, s.isDelivery = true) :
    ∃ w', w.run steps = .ok w' ∧ w'.pool.IsRunning = true := by
  induction steps generalizing w with
  | nil => exact ⟨w, rfl, hr⟩
  | cons s rest ih =>
    obtain ⟨w1, h1, hr1⟩ := step_delivery_ok w s hi hr (hd s (List.mem_cons_self _ _))
    obtain ⟨w2, h2, hr2⟩ := ih w1 (step_inv _ _ _ hi h1) hr1
      (fun x hx => hd x (List.mem_cons_of_mem _ hx))
    exact ⟨w2, by simp only [World.run, h1, h2], hr2⟩

/-- C4: on a running pool reached from `NewBeans`, `Shutdown` returns `nil`
    and leaves the pool not running; in every state the program reaches after
    that, whatever steps intervene, the pool is still not running and every
    `Submit` and every `Shutdown` returns `ErrPoolShutdown` and changes
    nothing. -/
theorem Shutdown_once_and_permanent (options : List BaristaOptions) (p0 : Barista)
    (pre : List Step) (w : World)
    (hp : NewBeans options = (some p0, none))
    (hrun : (World.init p0).run pre = .ok w)
    (hr : w.pool.IsRunning = true) :
    ∃ p1, w.pool.Shutdown = .ok (p1, none) ∧ p1.IsRunning = false ∧
      w.step .shutdown = .ok { w with pool := p1 } ∧
      ∀ (post : List Step) (w' : World), w.run (.shutdown :: post) = .ok w' →
        w'.pool.IsRunning = false ∧
        (∀ task parked, w'.pool.Submit task parked = .ok (w'.pool, some .ErrPoolShutdown)) ∧
        w'.pool.Shutdown = .ok (w'.pool, some .ErrPoolShutdown) := by
  have hi := run_inv pre _ _ (init_inv options p0 hp) hrun
  obtain ⟨hc, hq⟩ := hi.1 hr
  have hsd := Shutdown_running w.pool hr hc hq
  refine ⟨_, hsd, rfl, by simp only [World.step, hsd], ?_⟩
  intro post w' hpost
  simp only [World.run, World.step, hsd] at hpost
  have hstop := run_stopped post _ _ rfl hpost
  exact ⟨hstop, fun t k => Submit_stopped _ t k hstop, Shutdown_stopped _ hstop⟩

/-- C4 at the pool of `NewBeans(WithMinBeans(1), WithMaxBeans(2),
    WithQueueCapacity(4))` after one accepted `Submit`. -/
theorem Shutdown_once_and_permanent_witness :
    NewBeans [WithMinBeans 1, WithMaxBeans 2, WithQueueCapacity 4] =
      (some ⟨[⟨0, false⟩], 1, 2, Chan.make 4, Chan.make 4, true⟩, none) ∧
    (World.init ⟨[⟨0, false⟩], 1, 2, Chan.make 4, Chan.make 4, true⟩).run [.submit 7 false] =
      .ok ⟨⟨[⟨0, false⟩], 1, 2, ⟨[7], 4, false, []⟩, Chan.make 4, true⟩, [7], []⟩ ∧
    ∃ p1, Barista.Shutdown ⟨[⟨0, false⟩], 1, 2, ⟨[7], 4, false, []⟩, Chan.make 4, true⟩ =
        .ok (p1, none) ∧ p1.IsRunning = false ∧
      World.step ⟨⟨[⟨0, false⟩], 1, 2, ⟨[7], 4, false, []⟩, Chan.make 4, true⟩, [7], []⟩
          .shutdown =
        .ok { (⟨⟨[⟨0, false⟩], 1, 2, ⟨[7], 4, false, []⟩, Chan.make 4, true⟩, [7], []⟩ :
          World) with pool := p1 } ∧
      ∀ (post : List Step) (w' : World),
        World.run ⟨⟨[⟨0, false⟩], 1, 2, ⟨[7], 4, false, []⟩, Chan.make 4, true⟩, [7], []⟩
            (.shutdown :: post) = .ok w' →
        w'.pool.IsRunning = false ∧
        (∀ task parked, w'.pool.Submit task parked = .ok (w'.pool, some .ErrPoolShutdown)) ∧
        w'.pool.Shutdown = .ok (w'.pool, some .ErrPoolShutdown) :=
  ⟨rfl, rfl,
    Shutdown_once_and_permanent [WithMinBeans 1, WithMaxBeans 2, WithQueueCapacity 4]
      ⟨[⟨0, false⟩], 1, 2, Chan.make 4, Chan.make 4, true⟩ [.submit 7 false]
      ⟨⟨[⟨0, false⟩], 1, 2, ⟨[7], 4, false, []⟩, Chan.make 4, true⟩, [7], []⟩ rfl rfl rfl⟩

/-- C5 (as amended): for every pool returned by `NewBeans` and every sequence
    of `Submit`, tick, signal, worker and `Shutdown` steps,
    `MinBeans ≤ len(Beans) ≤ max(MaxBeans, 0)` holds after every step, with
    `MinBeans` and `MaxBeans` the configured values; so
    `MinBeans ≤ len(Beans) ≤ MaxBeans` whenever `MaxBeans ≥ 0`. -/
theorem worker_count_within_bounds (options : List BaristaOptions) (p0 : Barista)
    (steps : List Step) (w : World)
    (hp : NewBeans options = (some p0, none))
    (hrun : (World.init p0).run steps = .ok w) :
    w.pool.MinBeans = p0.MinBeans ∧ w.pool.MaxBeans = p0.MaxBeans ∧
    w.pool.MinBeans ≤ (w.pool.Beans.length : Int) ∧
    (w.pool.Beans.length : Int) ≤ max w.pool.MaxBeans 0 ∧
    (0 ≤ w.pool.MaxBeans → (w.pool.Beans.length : Int) ≤ w.pool.MaxBeans) := by
  obtain ⟨_, h1, h2, _⟩ := run_inv steps _ _ (init_inv options p0 hp) hrun
  obtain ⟨c1, c2⟩ := run_config steps _ _ hrun
  refine ⟨c1, c2, h1, h2, fun h0 => ?_⟩
  omega

/-- The amended C5 after three `Submit` calls and a spawn on the signal
    branch: 3 workers with bounds 2 and 4. -/
theorem worker_count_within_bounds_witness :
    ∃ p0 w, NewBeans [WithMinBeans 2, WithMaxBeans 4, WithQueueCapacity 10] = (some p0, none) ∧
      (World.init p0).run [.submit 1 false, .submit 2 false, .submit 3 false, .signal] = .ok w ∧
      w.pool.Beans.length = 3 ∧
      w.pool.MinBeans = p0.MinBeans ∧ w.pool.MaxBeans = p0.MaxBeans ∧
      w.pool.MinBeans ≤ (w.pool.Beans.length : Int) ∧
      (w.pool.Beans.length : Int) ≤ max w.pool.MaxBeans 0 ∧
      (0 ≤ w.pool.MaxBeans → (w.pool.Beans.length : Int) ≤ w.pool.MaxBeans) :=
  ⟨⟨[⟨0, false⟩, ⟨1, false⟩], 2, 4, Chan.make 10, Chan.make 10, true⟩,
    ⟨⟨[⟨0, false⟩, ⟨1, false⟩, ⟨2, false⟩], 2, 4, ⟨[1, 2, 3], 10, false, []⟩, Chan.make 10,
      true⟩, [1, 2, 3], []⟩,
    rfl, rfl, rfl,
    worker_count_within_bounds [WithMinBeans 2, WithMaxBeans 4, WithQueueCapacity 10]
      ⟨[⟨0, false⟩, ⟨1, false⟩], 2, 4, Chan.make 10, Chan.make 10, true⟩
      [.submit 1 false, .submit 2 false, .submit 3 false, .signal]
      ⟨⟨[⟨0, false⟩, ⟨1, false⟩, ⟨2, false⟩], 2, 4, ⟨[1, 2, 3], 10, false, []⟩, Chan.make 10,
        true⟩, [1, 2, 3], []⟩ rfl rfl⟩

/-- C5 fails as stated: `NewBeans(WithMinBeans(-5), WithMaxBeans(-3))` returns
    a pool with no workers, and after a tick it still has 0 workers, more than
    its `MaxBeans = -3`. -/
theorem worker_count_negative_max_counterexample :
    NewBeans [WithMinBeans (-5), WithMaxBeans (-3)] =
      (some ⟨[], -5, -3, Chan.make 500, Chan.make 500, true⟩, none) ∧
    (World.init ⟨[], -5, -3, Chan.make 500, Chan.make 500, true⟩).run [.tick] =
      .ok (World.init ⟨[], -5, -3, Chan.make 500, Chan.make 500, true⟩) ∧
    ¬ ((World.init ⟨[], -5, -3, Chan.make 500, Chan.make 500, true⟩).pool.MinBeans ≤
          ((World.init ⟨[], -5, -3, Chan.make 500, Chan.make 500, true⟩).pool.Beans.length : Int) ∧
        ((World.init ⟨[], -5, -3, Chan.make 500, Chan.make 500, true⟩).pool.Beans.length : Int) ≤
          (World.init ⟨[], -5, -3, Chan.make 500, Chan.make 500, true⟩).pool.MaxBeans) := by
  refine ⟨rfl, rfl, ?_⟩
  decide

/-- C6: from the pool returned by `NewBeans`, every sequence of `Submit` calls
    and `brew` rounds runs to a state in which the tasks `Submit` accepted, in
    call order, are exactly the tasks workers have taken for execution
    followed by the tasks still queued; so each accepted task occurs among the
    taken and queued tasks as often as it was accepted. -/
theorem accepted_is_taken_then_queued (options : List BaristaOptions) (p0 : Barista)
    (steps : List Step)
    (hp : NewBeans options = (some p0, none))
    (hd : ∀ s ∈ steps, s.isDelivery = true) :
    ∃ w, (World.init p0).run steps = .ok w ∧
      w.accepted = w.pool.orders.taken ++ w.pool.orders.buf ∧
      ∀ t, w.accepted.count t = w.pool.orders.taken.count t + w.pool.orders.buf.count t := by
  obtain ⟨w, hw, _⟩ := run_delivery_ok steps (World.init p0) (init_inv options p0 hp)
    (by
      rw [NewBeans_eq] at hp
      split at hp
      · simp at hp
      · simp only [Prod.mk.injEq, Option.some.injEq, and_true] at hp
        subst hp; rfl) hd
  have hi := run_inv steps _ _ (init_inv options p0 hp) hw
  refine ⟨w, hw, hi.2.2.2, fun t => ?_⟩
  rw [hi.2.2.2, List.count_append]

/-- C6 on a run with a buffered task, a task handed to a parked worker and a
    refused task. -/
theorem accepted_is_taken_then_queued_witness :
    NewBeans [WithMinBeans 1, WithMaxBeans 2, WithQueueCapacity 2] =
      (some ⟨[⟨0, false⟩], 1, 2, Chan.make 2, Chan.make 2, true⟩, none) ∧
    ∃ w, (World.init ⟨[⟨0, false⟩], 1, 2, Chan.make 2, Chan.make 2, true⟩).run
        [.submit 7 false, .brew ⟨0, false⟩ false, .submit 8 true, .submit 9 false,
          .submit 10 false, .submit 11 false] = .ok w ∧
      w.accepted = w.pool.orders.taken ++ w.pool.orders.buf ∧
      ∀ t, w.accepted.count t = w.pool.orders.taken.count t + w.pool.orders.buf.count t :=
  ⟨rfl, accepted_is_taken_then_queued [WithMinBeans 1, WithMaxBeans 2, WithQueueCapacity 2]
    ⟨[⟨0, false⟩], 1, 2, Chan.make 2, Chan.make 2, true⟩ _ rfl (by decide)⟩

/-- The ticker branch never lengthens the worker list. -/
theorem monitorTick_never_spawns (p p' : Barista) (r : Option Bean)
    (h : p.monitorTick = .ok (p', r)) : p'.Beans.length ≤ p.Beans.length := by
  obtain ⟨_, _, _, _, _, e6⟩ := monitorTick_effect _ _ _ h
  rcases e6 with ⟨hb, _⟩ | ⟨_, hb, _⟩
  · rw [hb]
  · rw [hb, List.length_dropLast]; omega

/-- C9, the code at a failing input: after
    `NewBeans(WithMinBeans(2), WithMaxBeans(4), WithQueueCapacity(10))`, ten
    accepted `Submit` calls and one task taken by each of the two workers, the
    queue holds 8 tasks for 2 workers and `MaxBeans = 4`, so the spawn
    condition holds; the tick leaves the worker list as it is (2 workers),
    while the signal branch of the same loop would add a third worker. -/
theorem monitorTick_does_not_spawn :
    NewBeans [WithMinBeans 2, WithMaxBeans 4, WithQueueCapacity 10] =
      (some ⟨[⟨0, false⟩, ⟨1, false⟩], 2, 4, Chan.make 10, Chan.make 10, true⟩, none) ∧
    (World.init ⟨[⟨0, false⟩, ⟨1, false⟩], 2, 4, Chan.make 10, Chan.make 10, true⟩).run
        [.submit 0 false, .submit 1 false, .submit 2 false, .submit 3 false, .submit 4 false,
          .submit 5 false, .submit 6 false, .submit 7 false, .submit 8 false, .submit 9 false,
          .brew ⟨0, false⟩ false, .brew ⟨1, false⟩ false] =
      .ok ⟨⟨[⟨0, false⟩, ⟨1, false⟩], 2, 4, ⟨[2, 3, 4, 5, 6, 7, 8, 9], 10, false, [0, 1]⟩,
        Chan.make 10, true⟩, [0, 1, 2, 3, 4, 5, 6, 7, 8, 9], []⟩ ∧
    Barista.shouldSpawnNewBean ⟨[⟨0, false⟩, ⟨1, false⟩], 2, 4,
        ⟨[2, 3, 4, 5, 6, 7, 8, 9], 10, false, [0, 1]⟩, Chan.make 10, true⟩ = true ∧
    Barista.monitorTick ⟨[⟨0, false⟩, ⟨1, false⟩], 2, 4,
        ⟨[2, 3, 4, 5, 6, 7, 8, 9], 10, false, [0, 1]⟩, Chan.make 10, true⟩ =
      .ok (⟨[⟨0, false⟩, ⟨1, false⟩], 2, 4, ⟨[2, 3, 4, 5, 6, 7, 8, 9], 10, false, [0, 1]⟩,
        Chan.make 10, true⟩, none) ∧
    (Barista.monitorSignal ⟨[⟨0, false⟩, ⟨1, false⟩], 2, 4,
        ⟨[2, 3, 4, 5, 6, 7, 8, 9], 10, false, [0, 1]⟩, Chan.make 10, true⟩).Beans =
      [⟨0, false⟩, ⟨1, false⟩, ⟨2, false⟩] := by
  exact ⟨rfl, rfl, rfl, rfl, rfl⟩

theorem Submit_shape (p p' : Barista) (t : Task) (parked : Bool) (r : Option Error)
    (h : p.Submit t parked = .ok (p', r)) : ∃ c, p' = { p with orders := c } := by
  obtain ⟨beans, mn, mx, ord, mon, run⟩ := p
  unfold Barista.Submit at h
  cases run with
  | true =>
    simp only [Bool.not_true, Bool.false_eq_true, if_false] at h
    cases hs : ord.trySend t parked with
    | error e => simp [hs] at h
    | ok cr =>
      obtain ⟨c, sent⟩ := cr
      cases sent with
      | true => simp [hs] at h; exact ⟨c, h.1.symm⟩
      | false => simp [hs] at h; exact ⟨ord, h.1.symm⟩
  | false =>
    simp at h
    exact ⟨ord, h.1.symm⟩

theorem kill_never_due (p : Barista) (h : (p.Beans.length : Int) = max p.MinBeans 0) :
    p.shouldKillBean = false := by
  simp only [Barista.shouldKillBean, Bool.and_eq_false_iff, decide_eq_false_iff_not]
  by_cases h0 : p.Beans.length = 0
  · left; rw [h0]; simp
  · right; omega

theorem kill_idle (p : Barista) (h : (p.Beans.length : Int) = max p.MinBeans 0) :
    p.monitorTick = .ok (p, none) := by
  simp [Barista.monitorTick, kill_never_due p h]

theorem program_init_inv (options : List BaristaOptions) (p : Barista)
    (hp : NewBeans options = (some p, none)) : (Program.init p).Inv := by
  refine ⟨init_inv options p hp, rfl, ?_⟩
  rw [NewBeans_eq] at hp
  split at hp
  · simp at hp
  · simp only [Prod.mk.injEq, Option.some.injEq, and_true] at hp
    subst hp
    refine ⟨rfl, rfl, ?_, rfl, ?_⟩
    · simp only [Program.init, World.init, startBeans_length, List.length_nil, Nat.zero_add]
      omega
    · intro b hb
      simpa [Program.init, World.init] using startBeans_quit _ _ _ (by simp) b hb

theorem program_step_inv (s : Program) (st : Step) (hi : s.Inv) :
    ∃ s', s.step st = .ok s' ∧ s'.Inv := by
  obtain ⟨hw, hm, hbuf, hcl, hlen, hret, hq⟩ := hi
  obtain ⟨w, mon⟩ := s
  simp only at hw hm hbuf hcl hlen hret hq
  subst hm
  have hm : (⟨w, true⟩ : Program).monitoring = true := rfl
  cases st with
  | tick =>
    have hk := kill_idle w.pool hlen
    refine ⟨⟨w, true⟩, ?_, hw, hm, hbuf, hcl, hlen, hret, hq⟩
    simp [Program.step, World.step, hk]
  | signal =>
    refine ⟨⟨w, true⟩, ?_, hw, hm, hbuf, hcl, hlen, hret, hq⟩
    simp [Program.step, Chan.recv, hbuf, hcl]
  | submit task parked =>
    cases hr : w.pool.IsRunning with
    | false =>
      have hs := Submit_stopped w.pool task parked hr
      refine ⟨⟨w, true⟩, ?_, hw, hm, hbuf, hcl, hlen, hret, hq⟩
      simp [Program.step, World.step, hs]
    | true =>
      obtain ⟨w', h1, hr1⟩ := step_delivery_ok w (.submit task parked) hw hr rfl
      have hw' := step_inv _ _ _ hw h1
      refine ⟨⟨w', true⟩, by simp only [Program.step, h1], hw', hm, ?_⟩
      simp only [World.step] at h1
      cases hs : w.pool.Submit task parked with
      | error e => simp [hs] at h1
      | ok pr =>
        obtain ⟨p, r⟩ := pr
        obtain ⟨c, rfl⟩ := Submit_shape _ _ _ _ _ hs
        cases r with
        | none =>
          simp [hs] at h1; subst h1
          exact ⟨hbuf, hcl, hlen, hret, hq⟩
        | some err =>
          simp [hs] at h1; subst h1
          exact ⟨hbuf, hcl, hlen, hret, hq⟩
  | brew b pickQuit =>
    obtain ⟨e1, _, e3⟩ := brew_effect b w.pool.orders pickQuit
    by_cases hb : b ∈ w.pool.Beans ++ w.retired
    · refine ⟨⟨{ w with pool :=
          { w.pool with orders := (b.brew w.pool.orders pickQuit).2 } }, true⟩, ?_, ?_,
        hm, hbuf, hcl, hlen, hret, hq⟩
      · simp only [Program.step, World.step, hb, if_true]
      · exact step_inv w _ (.brew b pickQuit) hw (by simp only [World.step, hb, if_true])
    · refine ⟨⟨w, true⟩, ?_, hw, hm, hbuf, hcl, hlen, hret, hq⟩
      simp only [Program.step, World.step, hb, if_false]
  | shutdown =>
    cases hr : w.pool.IsRunning with
    | false =>
      have hs := Shutdown_stopped w.pool hr
      refine ⟨⟨w, true⟩, ?_, hw, hm, hbuf, hcl, hlen, hret, hq⟩
      simp [Program.step, World.step, hs]
    | true =>
      obtain ⟨hc, hqs⟩ := hw.1 hr
      have hs := Shutdown_running w.pool hr hc hqs
      have h1 : w.step .shutdown = .ok { w with pool :=
          { w.pool with
            Beans := w.pool.Beans.map (fun b => { b with quit := true }),
            orders := { w.pool.orders with closed := true },
            IsRunning := false } } := by
        simp only [World.step, hs]
      refine ⟨⟨_, true⟩, by simp only [Program.step, h1],
        step_inv _ _ _ hw h1, hm, hbuf, hcl, ?_, hret, ?_⟩
      · simpa using hlen
      · intro b hb
        simp only [List.mem_map] at hb
        obtain ⟨a, _, rfl⟩ := hb
        rfl

theorem program_run_inv (steps : List Step) (s : Program) (hi : s.Inv) :
    ∃ s', s.run steps = .ok s' ∧ s'.Inv := by
  induction steps generalizing s with
  | nil => exact ⟨s, rfl, hi⟩
  | cons st rest ih =>
    obtain ⟨s1, h1, hi1⟩ := program_step_inv s st hi
    obtain ⟨s2, h2, hi2⟩ := ih s1 hi1
    exact ⟨s2, by simp only [Program.run, h1, h2], hi2⟩

/-- C10: from the pool returned by `NewBeans`, every sequence of `Submit`
    calls, ticks and `p.monitor` rounds of the rebalancing loop, worker rounds
    and `Shutdown` calls, ticks after `Shutdown` included, runs without a
    panic, so `close(b.quit)` never meets a closed channel: the loop is still
    running, its kill condition is false, `killBean` has removed no bean, and
    the listed beans are stopped exactly when `Shutdown` has run, which stops
    each of them once. -/
theorem stop_invoked_at_most_once (options : List BaristaOptions) (p0 : Barista)
    (steps : List Step) (hp : NewBeans options = (some p0, none)) :
    ∃ s, (Program.init p0).run steps = .ok s ∧
      s.monitoring = true ∧
      s.world.pool.shouldKillBean = false ∧
      s.world.pool.monitorTick = .ok (s.world.pool, none) ∧
      s.world.retired = [] ∧
      ∀ b ∈ s.world.pool.Beans, b.quit = !s.world.pool.IsRunning := by
  obtain ⟨s, hs, _, hm, _, _, hlen, hret, hq⟩ :=
    program_run_inv steps (Program.init p0) (program_init_inv options p0 hp)
  exact ⟨s, hs, hm, kill_never_due s.world.pool hlen, kill_idle s.world.pool hlen, hret, hq⟩

/-- C10 on a run with submissions, worker rounds, a round of the `p.monitor`
    branch, `Shutdown` and a tick after it. -/
theorem stop_invoked_at_most_once_witness :
    NewBeans [WithMinBeans 1, WithMaxBeans 2, WithQueueCapacity 4] =
      (some ⟨[⟨0, false⟩], 1, 2, Chan.make 4, Chan.make 4, true⟩, none) ∧
    ∃ s, (Program.init ⟨[⟨0, false⟩], 1, 2, Chan.make 4, Chan.make 4, true⟩).run
        [.submit 0 false, .brew ⟨0, false⟩ false, .submit 1 false, .submit 2 false, .signal,
          .brew ⟨0, false⟩ false, .brew ⟨0, false⟩ false, .shutdown, .tick, .shutdown,
          .tick] = .ok s ∧
      s.monitoring = true ∧
      s.world.pool.shouldKillBean = false ∧
      s.world.pool.monitorTick = .ok (s.world.pool, none) ∧
      s.world.retired = [] ∧
      ∀ b ∈ s.world.pool.Beans, b.quit = !s.world.pool.IsRunning :=
  ⟨rfl, stop_invoked_at_most_once [WithMinBeans 1, WithMaxBeans 2, WithQueueCapacity 4]
    ⟨[⟨0, false⟩], 1, 2, Chan.make 4, Chan.make 4, true⟩ _ rfl⟩

end Beans
